import Mathlib

/-!
Verification of the lua-yyjson binding core (src/lyyjson.c).

The development shallowly embeds, in Lean:
  * the bounded tracking allocator (memalloc_t with malloc_lua, realloc_lua,
    free_lua, memalloc_dispose, memalloc_init);
  * the host-value to mutable-JSON builder (tovalue) together with the
    array/object coercion rules;
  * the JSON-value to host-value conversion (pushvalue) and the decode/encode
    entry points (decode_lua, encode_lua).

Machine integers (size_t, lua_Integer) are embedded as Nat/Int with explicit
bounds where overflow matters.  The vendored yyjson primitives that the
binding calls (array append/insert, object add, the reader) are not part of
src/; they are modelled from the specification text and marked as such in
their doc comments.
-/

namespace Lyyjson

/-! ### Bounded tracking arena (memalloc_t, src/lyyjson.c lines 28-167) -/

/-- SIZE_MAX for a 64-bit size_t. -/
def SIZE_MAX : Nat := 2 ^ 64 - 1

/-- State of memalloc_t: the address-to-size tracking table (the Lua table on
the private thread, keyed by the pointer's printed address, here an
association list keyed by the address as a number), the running usesize,
the ceiling maxsize (0 = unbounded) and the nomem flag. -/
structure Memalloc where
  sizes : List (Nat × Nat)
  usesize : Nat
  maxsize : Nat
  nomem : Bool
deriving Repr, DecidableEq

/-- memalloc_init: empty tracking table, usesize 0, given ceiling, nomem 0. -/
def memalloc_init (maxsize : Nat) : Memalloc :=
  { sizes := [], usesize := 0, maxsize := maxsize, nomem := false }

/-- The memory-limit test shared by malloc_lua and realloc_lua:
maxsize is non-zero and (SIZE_MAX - size < usesize or size + usesize > maxsize). -/
def limitHit (m : Memalloc) (size : Nat) : Bool :=
  decide (m.maxsize ≠ 0 ∧ (SIZE_MAX - size < m.usesize ∨ size + m.usesize > m.maxsize))

/-- Lookup of the recorded allocation size for an address (the lua_rawget on
the tracking table). -/
def lookupSize : List (Nat × Nat) → Nat → Option Nat
  | [], _ => none
  | (a, s) :: rest, addr => if a = addr then some s else lookupSize rest addr

/-- Removal of the tracking record for an address (rawset to nil). -/
def eraseKey : List (Nat × Nat) → Nat → List (Nat × Nat)
  | [], _ => []
  | (a, s) :: rest, addr => if a = addr then rest else (a, s) :: eraseKey rest addr

/-- malloc_lua.  The underlying lua_Alloc call is abstracted by the flag ok
(did the host allocator return a block) and the fresh address addr of that
block.  On a limit hit or an allocator failure the nomem flag is set and no
block is returned; on success the size is recorded under addr and usesize
grows by size. -/
def malloc_lua (m : Memalloc) (size : Nat) (ok : Bool) (addr : Nat) :
    Memalloc × Option Nat :=
  if limitHit m size then ({ m with nomem := true }, none)
  else if ok then
    ({ m with usesize := m.usesize + size, sizes := (addr, size) :: m.sizes },
     some addr)
  else ({ m with nomem := true }, none)

/-- realloc_lua.  The limit test is performed first, on the full requested
size against the current usesize (which still contains the old block's
size).  Then the old size is looked up by address; the underlying lua_Alloc
call is abstracted by ok and the (possibly moved) new address newaddr.  On
success the record is re-keyed from ptr to newaddr and usesize becomes
usesize - oldsize + size (under the arena invariant usesize is at least
oldsize, so Nat subtraction agrees with the C size_t arithmetic).  An
untracked ptr dereferences a NULL lookup result in C (undefined behaviour);
it is modelled as a no-op returning no block. -/
def realloc_lua (m : Memalloc) (ptr : Nat) (size : Nat) (ok : Bool)
    (newaddr : Nat) : Memalloc × Option Nat :=
  if limitHit m size then ({ m with nomem := true }, none)
  else
    match lookupSize m.sizes ptr with
    | none => (m, none)
    | some oldsize =>
      if ok then
        ({ m with usesize := m.usesize - oldsize + size,
                  sizes := (newaddr, size) :: eraseKey m.sizes ptr },
         some newaddr)
      else ({ m with nomem := true }, none)

/-- free_lua: look up the recorded size, remove the record, decrement
usesize.  An untracked ptr is undefined behaviour in C; modelled as a no-op. -/
def free_lua (m : Memalloc) (ptr : Nat) : Memalloc :=
  match lookupSize m.sizes ptr with
  | none => m
  | some size =>
    { m with sizes := eraseKey m.sizes ptr, usesize := m.usesize - size }

/-- memalloc_dispose: true when the leak assertion (usesize == 0) passes. -/
def memalloc_dispose (m : Memalloc) : Bool :=
  m.usesize == 0

/-- Sum of the sizes of the live tracked allocations. -/
def liveSum (l : List (Nat × Nat)) : Nat :=
  (l.map Prod.snd).sum

/-- The tracked addresses. -/
def keysOf (l : List (Nat × Nat)) : List Nat :=
  l.map Prod.fst

/-- The arena invariant: usesize equals the sum of the live sizes, tracked
addresses are pairwise distinct, and every live size is positive (the
lua_Alloc contract returns NULL on a zero-size request, so a zero-size block
is never tracked). -/
def ArenaInv (m : Memalloc) : Prop :=
  m.usesize = liveSum m.sizes ∧ (keysOf m.sizes).Nodup ∧ ∀ p ∈ m.sizes, 0 < p.2

/-- One arena operation: an allocation (with the host allocator's outcome ok
and the fresh address), a reallocation, or a release. -/
inductive AllocOp where
  | alloc (size : Nat) (ok : Bool) (addr : Nat)
  | realloc (ptr : Nat) (size : Nat) (ok : Bool) (newaddr : Nat)
  | release (ptr : Nat)
deriving Repr, DecidableEq

/-- The state transition of one arena operation. -/
def step (m : Memalloc) : AllocOp → Memalloc
  | .alloc size ok addr => (malloc_lua m size ok addr).1
  | .realloc ptr size ok newaddr => (realloc_lua m ptr size ok newaddr).1
  | .release ptr => free_lua m ptr

/-- Physical realizability of one operation: a successful allocation returns
a fresh non-null block of positive size (lua_Alloc returns NULL on zero-size
requests), a reallocation or release is only applied to a tracked pointer,
and a moved block's new address does not collide with another live block. -/
def validOp (m : Memalloc) : AllocOp → Prop
  | .alloc size ok addr => ok = true → addr ∉ keysOf m.sizes ∧ 0 < size
  | .realloc ptr size ok newaddr =>
      ptr ∈ keysOf m.sizes ∧
      (ok = true → newaddr ∉ keysOf (eraseKey m.sizes ptr) ∧ 0 < size)
  | .release ptr => ptr ∈ keysOf m.sizes

/-- Realizability of a whole operation sequence. -/
def validSeq : Memalloc → List AllocOp → Prop
  | _, [] => True
  | m, op :: rest => validOp m op ∧ validSeq (step m op) rest

instance (m : Memalloc) (op : AllocOp) : Decidable (validOp m op) := by
  cases op <;> simp only [validOp] <;> infer_instance

def decValidSeq (m : Memalloc) :
    (ops : List AllocOp) → Decidable (validSeq m ops)
  | [] => .isTrue trivial
  | op :: rest =>
    have : Decidable (validSeq (step m op) rest) := decValidSeq (step m op) rest
    inferInstanceAs (Decidable (validOp m op ∧ validSeq (step m op) rest))

instance (m : Memalloc) (ops : List AllocOp) : Decidable (validSeq m ops) :=
  decValidSeq m ops

/-- Running a sequence of arena operations. -/
def runOps (m : Memalloc) (ops : List AllocOp) : Memalloc :=
  ops.foldl step m

/-- The limit predicate exactly as claim C1 words it for reallocate: the
predicate of allocate applied to the size delta newsize - oldsize, that is,
used + (newsize - oldsize) overflows SIZE_MAX or exceeds the ceiling, with
the ceiling non-zero.  Stated over Int since the delta may be negative.
This definition follows the specification text, for comparison with
realloc_lua, which is translated from the source. -/
def specDeltaLimit (used maxsize oldsize newsize : Nat) : Prop :=
  maxsize ≠ 0 ∧
    ((used : Int) + ((newsize : Int) - (oldsize : Int)) > (SIZE_MAX : Int) ∨
     (used : Int) + ((newsize : Int) - (oldsize : Int)) > (maxsize : Int))

instance (used maxsize oldsize newsize : Nat) :
    Decidable (specDeltaLimit used maxsize oldsize newsize) := by
  simp only [specDeltaLimit]; infer_instance

/-- Concrete arena state for the C1 counterexample: one live block of 60
bytes at address 1, ceiling 100. -/
def c1state : Memalloc :=
  { sizes := [(1, 60)], usesize := 60, maxsize := 100, nomem := false }

/-- Demonstration operation sequence for the arena invariant. -/
def demoOps : List AllocOp :=
  [.alloc 8 true 1, .alloc 24 true 2, .realloc 1 16 true 3, .release 3,
   .release 2]

/-! ### Host (Lua) values and the mutable JSON tree -/

/-- The identity of a full userdata as far as tovalue and the table-coercion
check observe it: one of the three reserved sentinels AS_OBJECT, AS_ARRAY,
AS_NULL, or any other userdata. -/
inductive UData where
  | asObject
  | asArray
  | asNull
  | other
deriving Repr, DecidableEq

/-- A table key, as far as the builder's loops observe it: an integer key
(lauxh_isinteger holds), a string key, or any other key kind. -/
inductive LuaKey where
  | intKey (i : Int)
  | strKey (s : List Nat)
  | otherKey
deriving Repr, DecidableEq

mutual
/-- A host (Lua) value.  A number is split by the lauxh_isinteger test into
an integer (lua_Integer) and a non-integral double, the latter carried
opaquely by its bit pattern.  Strings are byte sequences (embedded NUL bytes
are representable). -/
inductive LuaValue where
  | nil
  | boolean (b : Bool)
  | integer (i : Int)
  | number (bits : Nat)
  | str (s : List Nat)
  | table (t : LuaTable)
  | userdata (u : UData)
  | lightuserdata
  | functionval
  | thread
deriving Repr, DecidableEq
/-- A host table: its raw length signal (lua_rawlen, the border used as the
"array length" heuristic) and its entries in iteration order. -/
inductive LuaTable where
  | mk (rawlen : Nat) (entries : LuaEntries)
deriving Repr, DecidableEq
/-- Table entries in lua_next iteration order. -/
inductive LuaEntries where
  | nil
  | cons (k : LuaKey) (v : LuaValue) (rest : LuaEntries)
deriving Repr, DecidableEq
end

/-- lua_rawget on a table's entries (first binding wins; a real Lua table
has at most one binding per key). -/
def rawget : LuaEntries → LuaKey → Option LuaValue
  | .nil, _ => none
  | .cons k v rest, key => if k = key then some v else rawget rest key

/-- lua_setfield on the entry list of a table under construction: replace
the existing binding of the key, or append a new binding. -/
def setfield : LuaEntries → List Nat → LuaValue → LuaEntries
  | .nil, k, v => .cons (.strKey k) v .nil
  | .cons k0 v0 rest, k, v =>
    if k0 = .strKey k then .cons k0 v rest
    else .cons k0 v0 (setfield rest k v)

mutual
/-- A mutable JSON value (yyjson_mut_val) as the binding constructs it. -/
inductive MutVal where
  | null
  | bool (b : Bool)
  | uint (n : Nat)
  | sint (i : Int)
  | real (bits : Nat)
  | str (s : List Nat)
  | arr (items : MutArr)
  | obj (entries : MutObj)
deriving Repr, DecidableEq
/-- The elements of a mutable JSON array, in order. -/
inductive MutArr where
  | nil
  | cons (v : MutVal) (rest : MutArr)
deriving Repr, DecidableEq
/-- The key/value pairs of a mutable JSON object, in insertion order. -/
inductive MutObj where
  | nil
  | cons (k : MutVal) (v : MutVal) (rest : MutObj)
deriving Repr, DecidableEq
end

/-- Modelled from the spec: yyjson_mut_arr_append (vendored yyjson, not
under src/) appends the value at the end of the array (insertion is O(1)
amortized in the spec's data model; the order is what matters here). -/
def mut_arr_append : MutArr → MutVal → MutArr
  | .nil, v => .cons v .nil
  | .cons x rest, v => .cons x (mut_arr_append rest v)

/-- Modelled from the spec: yyjson_mut_arr_insert (vendored yyjson, not
under src/) inserts the value at the given 0-based index, shifting the
suffix; an index beyond the length leaves the array unchanged (the call
reports failure, which the caller ignores). -/
def mut_arr_insert : MutArr → MutVal → Nat → MutArr
  | a, v, 0 => .cons v a
  | .nil, _, _ + 1 => .nil
  | .cons x rest, v, n + 1 => .cons x (mut_arr_insert rest v n)

/-- Appending n null fillers (the gap back-fill loop of tovalue). -/
def mut_arr_append_nulls : MutArr → Nat → MutArr
  | a, 0 => a
  | a, n + 1 => mut_arr_append_nulls (mut_arr_append a .null) n

/-- Modelled from the spec: yyjson_mut_obj_add (vendored yyjson, not under
src/) appends the key/value pair preserving insertion order; duplicate keys
are not merged. -/
def mut_obj_add : MutObj → MutVal → MutVal → MutObj
  | .nil, k, v => .cons k v .nil
  | .cons k0 v0 rest, k, v => .cons k0 v0 (mut_obj_add rest k v)

mutual
/-- tovalue (src/lyyjson.c lines 359-474): convert a host value to a
mutable JSON value; none for an unsupported host type.  Allocation is
modelled as always succeeding here (allocation failure is treated at the
encode_lua level through the arena model).  A table first honours an
AS_OBJECT or AS_ARRAY sentinel stored at index -1.  Caution: when index -1
holds a userdata that is neither sentinel, the C code pops its stack twice
for the one lua_rawgeti push (at line 392 inside the userdata branch and
again at line 399 after it), unbalancing the Lua stack before the raw
length is read - undefined behaviour, not a clean fall-through.  The
embedding has no stack, so on that path this function continues with the
heuristic arbitrarily; the returned value there is a modelling artifact on
which no theorem relies: the predicate cleanVal below marks exactly the
inputs whose conversion stays on stack-balanced paths, and the claims about
tables are restricted to them.  For any non-userdata value at index -1
(including absence) the single pop at line 399 is balanced, and a non-zero
raw length selects the array construction, otherwise the object
construction. -/
def tovalue : LuaValue → Option MutVal
  | .nil => some .null
  | .boolean b => some (.bool b)
  | .integer i => if 0 < i then some (.uint i.toNat) else some (.sint i)
  | .number bits => some (.real bits)
  | .str s => some (.str s)
  | .table (.mk rawlen es) =>
    match rawget es (.intKey (-1)) with
    | some (.userdata .asObject) => some (.obj (buildObj es .nil))
    | some (.userdata .asArray) => some (.arr (buildArr es 0 .nil))
    | _ =>
      if rawlen ≠ 0 then some (.arr (buildArr es 0 .nil))
      else some (.obj (buildObj es .nil))
  | .userdata .asNull => some .null
  | .userdata _ => none
  | .lightuserdata => none
  | .functionval => none
  | .thread => none

/-- The array-construction loop of tovalue: prev is the highest index
appended so far, acc the array built so far.  Only entries with an integer
key i > 0 whose value converts participate; i < prev inserts at 0-based
position i - 1; otherwise the gap up to i is back-filled with i - prev - 1
nulls and the value is appended, and prev becomes i. -/
def buildArr : LuaEntries → Int → MutArr → MutArr
  | .nil, _, acc => acc
  | .cons k v rest, prev, acc =>
    match k with
    | .intKey i =>
      if 0 < i then
        match tovalue v with
        | some val =>
          if i < prev then
            buildArr rest prev (mut_arr_insert acc val (i - 1).toNat)
          else
            buildArr rest i
              (mut_arr_append (mut_arr_append_nulls acc (i - prev - 1).toNat)
                val)
        | none => buildArr rest prev acc
      else buildArr rest prev acc
    | _ => buildArr rest prev acc

/-- The object-construction loop of tovalue: only string-keyed entries
whose value converts participate; the key is itself converted (to a JSON
string) and the pair is appended in iteration order. -/
def buildObj : LuaEntries → MutObj → MutObj
  | .nil, acc => acc
  | .cons k v rest, acc =>
    match k with
    | .strKey s =>
      match tovalue v with
      | some val => buildObj rest (mut_obj_add acc (.str s) val)
      | none => buildObj rest acc
    | _ => buildObj rest acc
end

mutual
/-- Whether converting this host value with tovalue stays on stack-balanced
paths of the C code: false exactly when the conversion reaches a table that
stores a non-sentinel userdata at index -1 (the double-pop path, lines 392
and 399), either at this value itself or at a nested value that
participates in the construction (a value under a positive integer key in
the array branch, a value under a string key in the object branch - other
entries are never converted). -/
def cleanVal : LuaValue → Bool
  | .table (.mk rawlen es) =>
    match rawget es (.intKey (-1)) with
    | some (.userdata .asObject) => cleanObjEntries es
    | some (.userdata .asArray) => cleanArrEntries es
    | some (.userdata _) => false
    | _ =>
      if rawlen ≠ 0 then cleanArrEntries es else cleanObjEntries es
  | _ => true

/-- Stack balance of the array-construction loop: every entry value that
gets converted (positive integer key) must itself convert cleanly. -/
def cleanArrEntries : LuaEntries → Bool
  | .nil => true
  | .cons k v rest =>
    match k with
    | .intKey i =>
      if 0 < i then cleanVal v && cleanArrEntries rest
      else cleanArrEntries rest
    | _ => cleanArrEntries rest

/-- Stack balance of the object-construction loop: every entry value that
gets converted (string key) must itself convert cleanly. -/
def cleanObjEntries : LuaEntries → Bool
  | .nil => true
  | .cons k v rest =>
    match k with
    | .strKey _ => cleanVal v && cleanObjEntries rest
    | _ => cleanObjEntries rest
end

/-- The failing input of the C6 bug report: a table whose index -1 holds
the AS_NULL sentinel, a userdata that is neither AS_OBJECT nor AS_ARRAY,
together with one ordinary positive entry. -/
def c6bug : LuaValue :=
  .table (.mk 1
    (.cons (.intKey (-1)) (.userdata .asNull)
      (.cons (.intKey 1) (.str [97]) .nil)))

/-- Whether a conversion result is an array. -/
def isArrResult : Option MutVal → Bool
  | some (.arr _) => true
  | _ => false

/-- Whether a conversion result is an object. -/
def isObjResult : Option MutVal → Bool
  | some (.obj _) => true
  | _ => false

/-- The table of claim C2 with entries in the given iteration order:
index 3 bound to "b" (byte 98) then index 1 bound to "a" (byte 97); its raw
length signal is 1 (t[1] is set, t[2] is not). -/
def c2table : LuaValue :=
  .table (.mk 1
    (.cons (.intKey 3) (.str [98]) (.cons (.intKey 1) (.str [97]) .nil)))

/-- The table of claim C4: index 1 bound to "a" then index 3 bound to "b",
raw length signal 1. -/
def c4table : LuaValue :=
  .table (.mk 1
    (.cons (.intKey 1) (.str [97]) (.cons (.intKey 3) (.str [98]) .nil)))

/-! ### Parsed (immutable) JSON values and pushvalue -/

mutual
/-- An immutable JSON value (yyjson_val) as pushvalue observes it: the type
tag together with the number subtype.  Reals are carried opaquely by their
bit pattern. -/
inductive JVal where
  | null
  | bool (b : Bool)
  | uint (n : Nat)
  | sint (i : Int)
  | real (bits : Nat)
  | str (s : List Nat)
  | arr (items : JArr)
  | obj (entries : JObj)
deriving Repr, DecidableEq
/-- The elements of an immutable JSON array, in order. -/
inductive JArr where
  | nil
  | cons (v : JVal) (rest : JArr)
deriving Repr, DecidableEq
/-- The key/value pairs of an immutable JSON object, in order. -/
inductive JObj where
  | nil
  | cons (k : List Nat) (v : JVal) (rest : JObj)
deriving Repr, DecidableEq
end

/-- Length of an immutable JSON array (the iterator's max field). -/
def jarrLen : JArr → Nat
  | .nil => 0
  | .cons _ rest => jarrLen rest + 1

/-- The n-th (0-based) element of an immutable JSON array. -/
def jarrNth : JArr → Nat → Option JVal
  | .nil, _ => none
  | .cons v _, 0 => some v
  | .cons _ rest, n + 1 => jarrNth rest n

/-- The bytes of a string as a NUL-terminated C string presents them: the
longest prefix free of NUL bytes.  pushvalue reads parsed strings through
char pointers (lua_pushstring at line 257, lua_setfield at line 307), so a
parsed string or object key carrying an embedded NUL is truncated there. -/
def truncCString (s : List Nat) : List Nat :=
  s.takeWhile (fun b => b != 0)

mutual
/-- pushvalue (src/lyyjson.c lines 226-319): convert an immutable JSON
value to a host value.  A JSON null becomes the AS_NULL sentinel when
with_null is set and nil otherwise.  A uint is pushed through
lua_pushinteger, converting the u64 to the signed 64-bit lua_Integer (wrap
for values at or above 2^63).  A string is pushed with lua_pushstring
(line 257), a NUL-terminated C-string API: the pushed value is the input
truncated at its first embedded NUL byte.  An array becomes a table with
entries at indices 1..n; an object becomes a table written with
lua_setfield; with with_ref the matching sentinel is stored at index -1
first.  The stack-space failure paths cannot be observed in this embedding
(stack depth is not modelled). -/
def pushvalue : JVal → Bool → Bool → LuaValue
  | .null, with_null, _ => if with_null then .userdata .asNull else .nil
  | .bool b, _, _ => .boolean b
  | .uint n, _, _ =>
    .integer (if n < 2 ^ 63 then (n : Int) else (n : Int) - 2 ^ 64)
  | .sint i, _, _ => .integer i
  | .real bits, _, _ => .number bits
  | .str s, _, _ => .str (truncCString s)
  | .arr items, with_null, with_ref =>
    .table (.mk (jarrLen items)
      (if with_ref then
        .cons (.intKey (-1)) (.userdata .asArray)
          (pushArr items with_null with_ref 1)
      else pushArr items with_null with_ref 1))
  | .obj entries, with_null, with_ref =>
    .table (.mk 0
      (pushObj entries with_null with_ref
        (if with_ref then .cons (.intKey (-1)) (.userdata .asObject) .nil
         else .nil)))

/-- The array loop of pushvalue: element j (1-based index idx + j - 1) is
stored at integer key idx + j - 1 via lua_rawseti. -/
def pushArr : JArr → Bool → Bool → Int → LuaEntries
  | .nil, _, _, _ => .nil
  | .cons v rest, with_null, with_ref, idx =>
    .cons (.intKey idx) (pushvalue v with_null with_ref)
      (pushArr rest with_null with_ref (idx + 1))

/-- The object loop of pushvalue: each pair is written with lua_setfield
(line 307), which takes the key as a NUL-terminated C string, so the entry
is stored under the key truncated at its first embedded NUL byte; later
duplicate keys overwrite earlier ones in the host table. -/
def pushObj : JObj → Bool → Bool → LuaEntries → LuaEntries
  | .nil, _, _, acc => acc
  | .cons k v rest, with_null, with_ref, acc =>
    pushObj rest with_null with_ref
      (setfield acc (truncCString k) (pushvalue v with_null with_ref))
end

/-- The entries of a host table value (nil entries for non-tables). -/
def tableEntriesOf : LuaValue → LuaEntries
  | .table (.mk _ es) => es
  | _ => .nil

/-! ### The decode and encode entry points -/

/-- The yyjson reader error code YYJSON_READ_ERROR_MEMORY_ALLOCATION,
raised on allocation failure and reported by both decode_lua (read side)
and encode_lua (which reuses the read-side code on allocation failure). -/
def YYJSON_READ_ERROR_MEMORY_ALLOCATION : Nat := 2

/-- The ceiling handed to memalloc_init by decode_lua and encode_lua:
a negative maxsize argument is replaced by 0 (unbounded). -/
def ceilingOf (maxsize : Int) : Nat :=
  if maxsize < 0 then 0 else maxsize.toNat

/-- Running a sequence of arena allocation requests through malloc_lua with
a succeeding host allocator handing out fresh addresses addr, addr+1, ...;
stops reporting false at the first arena refusal. -/
def runAllocs (m : Memalloc) (reqs : List Nat) (addr : Nat) : Memalloc × Bool :=
  match reqs with
  | [] => (m, true)
  | size :: rest =>
    match malloc_lua m size true addr with
    | (m2, some _) => runAllocs m2 rest (addr + 1)
    | (m2, none) => (m2, false)

/-- Modelled from the spec: yyjson_read_opts (the vendored yyjson parser is
not part of src/).  The parser obtains all its memory from the arena passed
to it, modelled as the sequence reqs of allocation request sizes the input
requires; it fails as soon as an arena allocation fails, and on success
produces the document whose root is root. -/
def yyjson_read (m : Memalloc) (reqs : List Nat) (root : JVal) :
    Memalloc × Option JVal :=
  let r := runAllocs m reqs 1
  if r.2 then (r.1, some root) else (r.1, none)

/-- The observable outcome of decode_lua: the produced host value (none on
failure) and the error code (none on success). -/
structure DecodeResult where
  value : Option LuaValue
  errcode : Option Nat
deriving Repr, DecidableEq

/-- decode_lua (src/lyyjson.c lines 321-357): initialise the arena with the
clamped ceiling, read the document (modelled by its allocation requests reqs
and its root), and push the root through pushvalue on success; on failure
return no value together with the reader's error code. -/
def decode_lua (reqs : List Nat) (root : JVal) (with_null with_ref : Bool)
    (maxsize : Int) : DecodeResult :=
  let m := memalloc_init (ceilingOf maxsize)
  match yyjson_read m reqs root with
  | (_, some doc) =>
    { value := some (pushvalue doc with_null with_ref), errcode := none }
  | (_, none) =>
    { value := none, errcode := some YYJSON_READ_ERROR_MEMORY_ALLOCATION }

/-- The observable outcome of encode_lua, up to the writer: the document
root actually serialized (none on failure) and the error code. -/
structure EncodeResult where
  root : Option MutVal
  errcode : Option Nat
deriving Repr, DecidableEq

/-- encode_lua (src/lyyjson.c lines 476-525): initialise the arena with the
clamped ceiling; the allocations the call performs are modelled by reqs.  On
allocation failure the memory-allocation error code is returned; otherwise
the document root is tovalue of the argument, with null substituted when the
builder returns no value (unsupported top-level host type). -/
def encode_lua (v : LuaValue) (maxsize : Int) (reqs : List Nat) :
    EncodeResult :=
  let m := memalloc_init (ceilingOf maxsize)
  let r := runAllocs m reqs 1
  if r.2 then
    { root := some ((tovalue v).getD MutVal.null), errcode := none }
  else
    { root := none, errcode := some YYJSON_READ_ERROR_MEMORY_ALLOCATION }

/-! ### Association-list lemmas for the tracking table -/

theorem liveSum_nil : liveSum [] = 0 := rfl

theorem liveSum_cons (a s : Nat) (l : List (Nat × Nat)) :
    liveSum ((a, s) :: l) = s + liveSum l := by
  simp [liveSum]

theorem lookupSize_mem {l : List (Nat × Nat)} {a s : Nat}
    (h : lookupSize l a = some s) : (a, s) ∈ l := by
  induction l with
  | nil => simp [lookupSize] at h
  | cons p rest ih =>
    obtain ⟨b, t⟩ := p
    by_cases hb : b = a
    · subst hb
      simp [lookupSize] at h
      subst h
      exact List.mem_cons_self _ _
    · simp only [lookupSize, if_neg hb] at h
      exact List.mem_cons_of_mem _ (ih h)

theorem lookupSize_exists_of_mem_keys {l : List (Nat × Nat)} {a : Nat}
    (h : a ∈ keysOf l) : ∃ s, lookupSize l a = some s := by
  induction l with
  | nil => simp [keysOf] at h
  | cons p rest ih =>
    obtain ⟨b, t⟩ := p
    by_cases hb : b = a
    · exact ⟨t, by simp [lookupSize, hb]⟩
    · simp [keysOf, hb] at h
      rcases h with h | h
      · exact absurd h.symm hb
      · obtain ⟨s, hs⟩ := ih (by simpa [keysOf] using h)
        exact ⟨s, by simp [lookupSize, hb, hs]⟩

theorem liveSum_lookup_erase {l : List (Nat × Nat)} {a s : Nat}
    (h : lookupSize l a = some s) :
    liveSum l = s + liveSum (eraseKey l a) := by
  induction l with
  | nil => simp [lookupSize] at h
  | cons p rest ih =>
    obtain ⟨b, t⟩ := p
    by_cases hb : b = a
    · subst hb
      simp [lookupSize] at h
      subst h
      simp [eraseKey, liveSum_cons]
    · simp only [lookupSize, if_neg hb] at h
      simp only [eraseKey, if_neg hb, liveSum_cons, ih h]
      ring

theorem eraseKey_sublist (l : List (Nat × Nat)) (a : Nat) :
    List.Sublist (eraseKey l a) l := by
  induction l with
  | nil => simp [eraseKey]
  | cons p rest ih =>
    obtain ⟨b, t⟩ := p
    by_cases hb : b = a
    · simp only [eraseKey, if_pos hb]
      exact List.sublist_cons_self _ _
    · simp only [eraseKey, if_neg hb]
      exact ih.cons₂ _

theorem keysOf_eraseKey_sublist (l : List (Nat × Nat)) (a : Nat) :
    List.Sublist (keysOf (eraseKey l a)) (keysOf l) :=
  (eraseKey_sublist l a).map Prod.fst

/-! ### Preservation of the arena invariant -/

theorem arenaInv_step {m : Memalloc} {op : AllocOp}
    (hInv : ArenaInv m) (hOp : validOp m op) : ArenaInv (step m op) := by
  obtain ⟨hsum, hnd, hpos⟩ := hInv
  cases op with
  | alloc size ok addr =>
    cases ok with
    | false =>
      simp only [step, malloc_lua]
      split
      · exact ⟨hsum, hnd, hpos⟩
      · exact ⟨hsum, hnd, hpos⟩
    | true =>
      obtain ⟨hfresh, hszpos⟩ := hOp rfl
      simp only [step, malloc_lua]
      split
      · exact ⟨hsum, hnd, hpos⟩
      · refine ⟨?_, ?_, ?_⟩
        · show m.usesize + size = liveSum ((addr, size) :: m.sizes)
          rw [liveSum_cons, hsum]
          ring
        · show (keysOf ((addr, size) :: m.sizes)).Nodup
          exact List.nodup_cons.mpr ⟨hfresh, hnd⟩
        · intro p hp
          rcases List.mem_cons.mp hp with h | h
          · subst h; exact hszpos
          · exact hpos p h
  | realloc ptr size ok newaddr =>
    obtain ⟨hmem, hok⟩ := hOp
    obtain ⟨oldsize, hlook⟩ := lookupSize_exists_of_mem_keys hmem
    have hsplit := liveSum_lookup_erase hlook
    cases ok with
    | false =>
      simp only [step, realloc_lua, hlook]
      split
      · exact ⟨hsum, hnd, hpos⟩
      · exact ⟨hsum, hnd, hpos⟩
    | true =>
      obtain ⟨hfresh, hszpos⟩ := hok rfl
      simp only [step, realloc_lua, hlook]
      split
      · exact ⟨hsum, hnd, hpos⟩
      · refine ⟨?_, ?_, ?_⟩
        · show m.usesize - oldsize + size
            = liveSum ((newaddr, size) :: eraseKey m.sizes ptr)
          rw [liveSum_cons]
          omega
        · show (keysOf ((newaddr, size) :: eraseKey m.sizes ptr)).Nodup
          exact List.nodup_cons.mpr
            ⟨hfresh, hnd.sublist (keysOf_eraseKey_sublist m.sizes ptr)⟩
        · intro p hp
          rcases List.mem_cons.mp hp with h | h
          · subst h; exact hszpos
          · exact hpos p ((eraseKey_sublist m.sizes ptr).subset h)
  | release ptr =>
    obtain ⟨size, hlook⟩ := lookupSize_exists_of_mem_keys hOp
    have hsplit := liveSum_lookup_erase hlook
    simp only [step, free_lua, hlook]
    refine ⟨?_, hnd.sublist (keysOf_eraseKey_sublist m.sizes ptr), ?_⟩
    · show m.usesize - size = liveSum (eraseKey m.sizes ptr)
      omega
    · intro p hp
      exact hpos p ((eraseKey_sublist m.sizes ptr).subset hp)

theorem arenaInv_runOps {m : Memalloc} {ops : List AllocOp}
    (hInv : ArenaInv m) (h : validSeq m ops) : ArenaInv (runOps m ops) := by
  induction ops generalizing m with
  | nil => simpa [runOps] using hInv
  | cons op rest ih =>
    obtain ⟨h1, h2⟩ := h
    simpa [runOps] using ih (arenaInv_step hInv h1) h2

theorem liveSum_eq_zero_iff {l : List (Nat × Nat)}
    (hpos : ∀ p ∈ l, 0 < p.2) : liveSum l = 0 ↔ l = [] := by
  cases l with
  | nil => simp [liveSum]
  | cons p rest =>
    obtain ⟨a, s⟩ := p
    have := hpos (a, s) (List.mem_cons_self _ _)
    simp only [liveSum_cons]
    constructor
    · intro h; omega
    · intro h; exact absurd h (List.cons_ne_nil _ _)

/-- C3: after any physically realizable sequence of allocate / reallocate /
release operations starting from a fresh arena, usesize equals the sum of
the sizes of the live tracked allocations (and the tracked addresses stay
pairwise distinct); the dispose leak assertion passes exactly when the
sequence nets to zero outstanding size, equivalently exactly when no
allocation is left outstanding, and fails on any sequence leaving
outstanding allocations. -/
theorem arena_invariant_dispose (maxsize : Nat) (ops : List AllocOp)
    (h : validSeq (memalloc_init maxsize) ops) :
    ArenaInv (runOps (memalloc_init maxsize) ops)
    ∧ (memalloc_dispose (runOps (memalloc_init maxsize) ops) = true ↔
        liveSum (runOps (memalloc_init maxsize) ops).sizes = 0)
    ∧ (memalloc_dispose (runOps (memalloc_init maxsize) ops) = true ↔
        (runOps (memalloc_init maxsize) ops).sizes = []) := by
  have hInit : ArenaInv (memalloc_init maxsize) := by
    refine ⟨rfl, by simp [memalloc_init, keysOf], by simp [memalloc_init]⟩
  have hInv := arenaInv_runOps hInit h
  refine ⟨hInv, ?_, ?_⟩
  · rw [memalloc_dispose, beq_iff_eq, hInv.1]
  · rw [memalloc_dispose, beq_iff_eq, hInv.1, liveSum_eq_zero_iff hInv.2.2]

/-- Witness for C3 at the concrete sequence demoOps: allocate 8 at address
1, allocate 24 at address 2, grow the first block to 16 bytes moving it to
address 3, then release both. -/
theorem arena_invariant_dispose_witness :
    ArenaInv (runOps (memalloc_init 0) demoOps)
    ∧ (memalloc_dispose (runOps (memalloc_init 0) demoOps) = true ↔
        liveSum (runOps (memalloc_init 0) demoOps).sizes = 0)
    ∧ (memalloc_dispose (runOps (memalloc_init 0) demoOps) = true ↔
        (runOps (memalloc_init 0) demoOps).sizes = []) :=
  arena_invariant_dispose 0 demoOps (by decide)

/-- C1 (amended): when the underlying allocator succeeds, a reallocate call
on a tracked pointer of recorded size oldsize fails with the limit-exceeded
(out-of-memory) condition exactly when the limit predicate of allocate,
applied to the full requested size size against the current usesize (which
still includes oldsize), holds: maxsize is non-zero and usesize + size
overflows SIZE_MAX or exceeds maxsize.  On success the tracking record is
re-keyed from the old to the new address and usesize becomes
usesize - oldsize + size. -/
theorem realloc_limit_and_rekey (m : Memalloc) (ptr oldsize size newaddr : Nat)
    (hlook : lookupSize m.sizes ptr = some oldsize) :
    ((realloc_lua m ptr size true newaddr).2 = none ↔ limitHit m size = true)
    ∧ (limitHit m size = true ↔
        (m.maxsize ≠ 0 ∧
          (SIZE_MAX - size < m.usesize ∨ size + m.usesize > m.maxsize)))
    ∧ (limitHit m size = true →
        (realloc_lua m ptr size true newaddr).1.nomem = true ∧
        (realloc_lua m ptr size true newaddr).1.sizes = m.sizes ∧
        (realloc_lua m ptr size true newaddr).1.usesize = m.usesize)
    ∧ (limitHit m size = false →
        (realloc_lua m ptr size true newaddr).2 = some newaddr ∧
        (realloc_lua m ptr size true newaddr).1.sizes
          = (newaddr, size) :: eraseKey m.sizes ptr ∧
        lookupSize (realloc_lua m ptr size true newaddr).1.sizes newaddr
          = some size ∧
        (realloc_lua m ptr size true newaddr).1.usesize
          = m.usesize - oldsize + size) := by
  have hiff : limitHit m size = true ↔
      (m.maxsize ≠ 0 ∧
        (SIZE_MAX - size < m.usesize ∨ size + m.usesize > m.maxsize)) := by
    simp only [limitHit, decide_eq_true_eq]
  rcases Bool.eq_false_or_eq_true (limitHit m size) with hL | hL
  · refine ⟨?_, hiff, ?_, ?_⟩
    · simp [realloc_lua, hL]
    · intro _
      simp [realloc_lua, hL]
    · intro hF
      exact absurd (hL.symm.trans hF) (by decide)
  · refine ⟨?_, hiff, ?_, ?_⟩
    · simp [realloc_lua, hL, hlook]
    · intro hT
      exact absurd (hL.symm.trans hT) (by decide)
    · intro _
      simp [realloc_lua, hL, hlook, lookupSize]


/-- Witness for C1 (amended) at the concrete arena c1state (one live block
of 60 bytes at address 1, ceiling 100), reallocating it to 50 bytes. -/
theorem realloc_limit_and_rekey_witness :
    lookupSize c1state.sizes 1 = some 60
    ∧ (((realloc_lua c1state 1 50 true 2).2 = none ↔
          limitHit c1state 50 = true)
      ∧ (limitHit c1state 50 = true ↔
          (c1state.maxsize ≠ 0 ∧
            (SIZE_MAX - 50 < c1state.usesize ∨
             50 + c1state.usesize > c1state.maxsize)))
      ∧ (limitHit c1state 50 = true →
          (realloc_lua c1state 1 50 true 2).1.nomem = true ∧
          (realloc_lua c1state 1 50 true 2).1.sizes = c1state.sizes ∧
          (realloc_lua c1state 1 50 true 2).1.usesize = c1state.usesize)
      ∧ (limitHit c1state 50 = false →
          (realloc_lua c1state 1 50 true 2).2 = some 2 ∧
          (realloc_lua c1state 1 50 true 2).1.sizes
            = (2, 50) :: eraseKey c1state.sizes 1 ∧
          lookupSize (realloc_lua c1state 1 50 true 2).1.sizes 2
            = some 50 ∧
          (realloc_lua c1state 1 50 true 2).1.usesize
            = c1state.usesize - 60 + 50)) :=
  ⟨by decide, realloc_limit_and_rekey c1state 1 60 50 2 (by decide)⟩

/-- C1 counterexample: in the arena c1state (usesize 60, ceiling 100, one
block of 60 bytes at address 1), shrinking that block to 50 bytes has a
size delta of -10, so the claim's delta predicate does not hold (60 - 10 is
below the ceiling), yet the code refuses the call with the out-of-memory
condition because it tests the full new size: 50 + 60 > 100. -/
theorem realloc_delta_counterexample :
    ¬ specDeltaLimit c1state.usesize c1state.maxsize 60 50
    ∧ (realloc_lua c1state 1 50 true 2).2 = none
    ∧ (realloc_lua c1state 1 50 true 2).1.nomem = true := by
  decide

/-! ### Claims about the builder (tovalue) -/

/-- C2 counterexample: building from the iteration order 3 bound to "b"
then 1 bound to "a" first appends two null fillers and "b" (indices 1..3),
then, since 1 is below the previous maximum 3, inserts "a" at 0-based
position 1 - 1 = 0, in front of the fillers.  The result is
["a", null, null, "b"], not the three-element array ["a", null, "b"]
stated by the claim. -/
theorem build_out_of_order_counterexample :
    tovalue c2table
      = some (.arr (.cons (.str [97])
          (.cons .null (.cons .null (.cons (.str [98]) .nil)))))
    ∧ tovalue c2table
      ≠ some (.arr (.cons (.str [97])
          (.cons .null (.cons (.str [98]) .nil)))) := by
  decide

/-- C2 (amended): building an array from host table entries with positive
integer indices given in the iteration order 3 bound to "b" then 1 bound to
"a" performs positional insertion at 0-based position i - 1 = 0, placing
"a" at the head, in front of the two null fillers and "b" already appended
for index 3; the resulting array is ["a", null, null, "b"]. -/
theorem build_out_of_order_amended :
    tovalue c2table
      = some (.arr (.cons (.str [97])
          (.cons .null (.cons .null (.cons (.str [98]) .nil))))) := by
  decide

/-- C4: building from the ascending iteration order 1 bound to "a" then 3
bound to "b" back-fills the gap at index 2 with null and yields the array
["a", null, "b"] with no holes. -/
theorem build_sparse_fill :
    tovalue c4table
      = some (.arr (.cons (.str [97])
          (.cons .null (.cons (.str [98]) .nil)))) := by
  decide

/-- C5: scalar host values map directly: nil to null, boolean to bool, a
positive integral number to uint, a negative integral number to sint, a
non-integral number to real, and a string to a length-prefixed byte copy
(embedded NUL bytes are part of the byte list and preserved). -/
theorem tovalue_scalars :
    tovalue .nil = some .null
    ∧ (∀ b, tovalue (.boolean b) = some (.bool b))
    ∧ (∀ i : Int, 0 < i → tovalue (.integer i) = some (.uint i.toNat))
    ∧ (∀ i : Int, i < 0 → tovalue (.integer i) = some (.sint i))
    ∧ (∀ bits, tovalue (.number bits) = some (.real bits))
    ∧ (∀ s, tovalue (.str s) = some (.str s)) := by
  refine ⟨rfl, fun b => rfl, fun i hi => ?_, fun i hi => ?_,
    fun bits => rfl, fun s => rfl⟩
  · simp [tovalue, hi]
  · have : ¬ (0 < i) := by omega
    simp [tovalue, this]

/-- Witness for C5 at the numbers 3, -3 and at the string "a\0b" (a NUL
byte embedded between bytes 97 and 98). -/
theorem tovalue_scalars_witness :
    tovalue (.integer 3) = some (.uint 3)
    ∧ tovalue (.integer (-3)) = some (.sint (-3))
    ∧ tovalue (.str [97, 0, 98]) = some (.str [97, 0, 98]) :=
  ⟨tovalue_scalars.2.2.1 3 (by decide),
   tovalue_scalars.2.2.2.1 (-3) (by decide),
   tovalue_scalars.2.2.2.2.2 [97, 0, 98]⟩

/-- C6: array-versus-object resolution for a host table, on the
stack-balanced inputs (cleanVal and companions): an AS_ARRAY or AS_OBJECT
sentinel stored at the reserved index -1 is honoured directly (whatever the
raw length is, i.e. the heuristic is skipped); otherwise, when the value at
index -1 is not a userdata, a non-zero raw array-length signal selects
array construction, and otherwise object construction.  The claim's
remaining case - a non-sentinel userdata at index -1 - is not resolved by
the heuristic at all: the code pops its stack twice there (lines 392 and
399) and corrupts it; the last conjunct evaluates the embedding's marker of
that double-pop path at the failing input c6bug. -/
theorem table_resolution (rawlen : Nat) (es : LuaEntries) :
    (rawget es (.intKey (-1)) = some (.userdata .asArray) →
      cleanArrEntries es = true →
      isArrResult (tovalue (.table (.mk rawlen es))) = true)
    ∧ (rawget es (.intKey (-1)) = some (.userdata .asObject) →
      cleanObjEntries es = true →
      isObjResult (tovalue (.table (.mk rawlen es))) = true)
    ∧ ((∀ u, rawget es (.intKey (-1)) ≠ some (.userdata u)) →
       rawlen ≠ 0 → cleanArrEntries es = true →
       isArrResult (tovalue (.table (.mk rawlen es))) = true)
    ∧ ((∀ u, rawget es (.intKey (-1)) ≠ some (.userdata u)) →
       rawlen = 0 → cleanObjEntries es = true →
       isObjResult (tovalue (.table (.mk rawlen es))) = true)
    ∧ cleanVal c6bug = false := by
  refine ⟨fun h _ => ?_, fun h _ => ?_, fun hu h3 _ => ?_, fun hu h3 _ => ?_,
    by decide⟩
  · rw [show tovalue (.table (.mk rawlen es))
        = some (.arr (buildArr es 0 .nil)) by rw [tovalue, h]]
    rfl
  · rw [show tovalue (.table (.mk rawlen es))
        = some (.obj (buildObj es .nil)) by rw [tovalue, h]]
    rfl
  · rw [show tovalue (.table (.mk rawlen es))
        = some (.arr (buildArr es 0 .nil)) by
      rw [tovalue]
      cases hr : rawget es (.intKey (-1)) with
      | none => simp [h3]
      | some v =>
        cases v
        case userdata u => exact absurd hr (hu u)
        all_goals simp [h3]]
    rfl
  · rw [show tovalue (.table (.mk rawlen es))
        = some (.obj (buildObj es .nil)) by
      rw [tovalue]
      cases hr : rawget es (.intKey (-1)) with
      | none => simp [h3]
      | some v =>
        cases v
        case userdata u => exact absurd hr (hu u)
        all_goals simp [h3]]
    rfl

/-- Witness for C6: a table tagged AS_ARRAY with raw length 0 builds as an
array, a table tagged AS_OBJECT with raw length 5 builds as an object, an
untagged table with raw length 1 builds as an array, and an untagged table
with raw length 0 builds as an object; all four tables are stack-balanced. -/
theorem table_resolution_witness :
    isArrResult (tovalue (.table (.mk 0
      (.cons (.intKey (-1)) (.userdata .asArray) .nil)))) = true
    ∧ isObjResult (tovalue (.table (.mk 5
      (.cons (.intKey (-1)) (.userdata .asObject) .nil)))) = true
    ∧ isArrResult (tovalue (.table (.mk 1 .nil))) = true
    ∧ isObjResult (tovalue (.table (.mk 0 .nil))) = true :=
  ⟨(table_resolution 0
      (.cons (.intKey (-1)) (.userdata .asArray) .nil)).1
      (by decide) (by decide),
   (table_resolution 5
      (.cons (.intKey (-1)) (.userdata .asObject) .nil)).2.1
      (by decide) (by decide),
   (table_resolution 1 .nil).2.2.1
      (fun u => by simp [rawget]) (by decide) (by decide),
   (table_resolution 0 .nil).2.2.2.1
      (fun u => by simp [rawget]) rfl (by decide)⟩

/-- C8: unsupported host types (light userdata, functions, threads, and
any full userdata other than the three sentinels) build to no value; the
AS_NULL marker userdata builds to null; at the encode root a failed build
is substituted by null; inside containers an entry whose value fails to
build is simply omitted (both in object and in array construction). -/
theorem unsupported_builds :
    tovalue .lightuserdata = none
    ∧ tovalue .functionval = none
    ∧ tovalue .thread = none
    ∧ tovalue (.userdata .other) = none
    ∧ tovalue (.userdata .asNull) = some .null
    ∧ (∀ v maxsize reqs, tovalue v = none →
        (runAllocs (memalloc_init (ceilingOf maxsize)) reqs 1).2 = true →
        (encode_lua v maxsize reqs).root = some .null)
    ∧ (∀ s v rest acc, tovalue v = none →
        buildObj (.cons (.strKey s) v rest) acc = buildObj rest acc)
    ∧ (∀ (i : Int) v rest prev acc, tovalue v = none →
        buildArr (.cons (.intKey i) v rest) prev acc
          = buildArr rest prev acc) := by
  refine ⟨rfl, rfl, rfl, rfl, rfl, fun v maxsize reqs h1 h2 => ?_,
    fun s v rest acc h => ?_, fun i v rest prev acc h => ?_⟩
  · simp [encode_lua, h1, h2]
  · simp [buildObj, h]
  · by_cases hi : 0 < i <;> simp [buildArr, h, hi]

/-- Witness for C8: encoding a function at the top level yields a null
root, and a thread value inside an object and a light userdata inside an
array are omitted. -/
theorem unsupported_builds_witness :
    (encode_lua .functionval 0 []).root = some .null
    ∧ buildObj (.cons (.strKey [120]) .thread .nil) .nil = buildObj .nil .nil
    ∧ buildArr (.cons (.intKey 2) .lightuserdata .nil) 1 .nil
        = buildArr .nil 1 .nil :=
  ⟨unsupported_builds.2.2.2.2.2.1 .functionval 0 [] rfl (by decide),
   unsupported_builds.2.2.2.2.2.2.1 [120] .thread .nil .nil rfl,
   unsupported_builds.2.2.2.2.2.2.2 2 .lightuserdata .nil 1 .nil rfl⟩

/-! ### Claims about pushvalue and the decode / encode entry points -/

theorem rawget_pushArr : ∀ {items : JArr} {j : Nat} {v : JVal},
    jarrNth items j = some v → ∀ (with_null with_ref : Bool) (idx : Int),
    rawget (pushArr items with_null with_ref idx) (.intKey (idx + j))
      = some (pushvalue v with_null with_ref)
  | .nil, j, v, h => by simp [jarrNth] at h
  | .cons x rest, 0, v, h => by
    simp only [jarrNth, Option.some.injEq] at h
    subst h
    intro with_null with_ref idx
    simp [pushArr, rawget]
  | .cons x rest, n + 1, v, h => by
    simp only [jarrNth] at h
    intro with_null with_ref idx
    have hne : LuaKey.intKey idx ≠ .intKey (idx + ((n + 1 : Nat) : Int)) := by
      simp only [ne_eq, LuaKey.intKey.injEq]
      omega
    have harith : idx + 1 + (n : Int) = idx + ((n + 1 : Nat) : Int) := by
      push_cast
      ring
    rw [pushArr, rawget, if_neg hne, ← harith]
    exact rawget_pushArr h with_null with_ref (idx + 1)

theorem runAllocs_true_le {reqs : List Nat} {m : Memalloc} {addr : Nat}
    (h : (runAllocs m reqs addr).2 = true) (hmax : m.maxsize ≠ 0)
    (huse : m.usesize ≤ m.maxsize) : m.usesize + reqs.sum ≤ m.maxsize := by
  induction reqs generalizing m addr with
  | nil => simpa using huse
  | cons size rest ih =>
    rw [runAllocs] at h
    by_cases hL : limitHit m size = true
    · rw [malloc_lua, if_pos hL] at h
      simp at h
    · have hL' : limitHit m size = false := by simpa using hL
      have hok : ¬ (m.maxsize ≠ 0 ∧
          (SIZE_MAX - size < m.usesize ∨ size + m.usesize > m.maxsize)) := by
        simpa only [limitHit, decide_eq_false_iff_not] using hL'
      rw [malloc_lua, if_neg hL, if_pos rfl] at h
      have hstep := @ih { m with
          usesize := m.usesize + size, sizes := (addr, size) :: m.sizes }
        (addr + 1) h hmax (by simp; omega)
      simp only [List.sum_cons]
      simp at hstep
      omega

/-- C7: with a positive memory ceiling, an input whose parse requires the
arena's cumulative allocation to exceed the ceiling makes decode return no
value at all (never a partial result) together with the out-of-memory error
code. -/
theorem decode_memory_ceiling (reqs : List Nat) (root : JVal)
    (with_null with_ref : Bool) (maxsize : Int)
    (hpos : 0 < maxsize) (hover : maxsize.toNat < reqs.sum) :
    (decode_lua reqs root with_null with_ref maxsize).value = none
    ∧ (decode_lua reqs root with_null with_ref maxsize).errcode
        = some YYJSON_READ_ERROR_MEMORY_ALLOCATION := by
  have hceil : ceilingOf maxsize = maxsize.toNat := by
    rw [ceilingOf, if_neg (by omega)]
  have hfail : (runAllocs (memalloc_init (ceilingOf maxsize)) reqs 1).2 = false := by
    by_cases h : (runAllocs (memalloc_init (ceilingOf maxsize)) reqs 1).2 = true
    · exfalso
      have hc := runAllocs_true_le h
        (by simp [memalloc_init, hceil]; omega) (by simp [memalloc_init])
      simp [memalloc_init, hceil] at hc
      omega
    · simpa using h
  simp [decode_lua, yyjson_read, hfail]

/-- Witness for C7: decoding an input that needs 10 + 10 bytes of arena
allocation under a 16-byte ceiling fails with the memory-allocation code
and yields no value. -/
theorem decode_memory_ceiling_witness :
    (decode_lua [10, 10] .null false false 16).value = none
    ∧ (decode_lua [10, 10] .null false false 16).errcode
        = some YYJSON_READ_ERROR_MEMORY_ALLOCATION :=
  decode_memory_ceiling [10, 10] .null false false 16 (by decide) (by decide)

/-- C9: the null policy.  A JSON null is pushed as the AS_NULL sentinel
when with_null is set and as nil otherwise, at the root; an element of an
array that is a JSON null appears in the produced table, at its 1-based
integer key, as the sentinel or nil under the same rule; the value of an
object entry that is a JSON null likewise appears under the entry's key -
stored as lua_setfield stores it, under the key truncated at its first
embedded NUL byte (for NUL-free keys, the key itself); and decode returns
the pushed root on a successful read. -/
theorem decode_null_policy :
    (∀ with_ref, pushvalue .null true with_ref = .userdata .asNull)
    ∧ (∀ with_ref, pushvalue .null false with_ref = .nil)
    ∧ (∀ with_null with_ref items (j : Nat),
        jarrNth items j = some .null →
        rawget (tableEntriesOf (pushvalue (.arr items) with_null with_ref))
            (.intKey (1 + (j : Int)))
          = some (if with_null then LuaValue.userdata .asNull else .nil))
    ∧ (∀ with_null with_ref k,
        rawget
            (tableEntriesOf
              (pushvalue (.obj (.cons k .null .nil)) with_null with_ref))
            (.strKey (truncCString k))
          = some (if with_null then LuaValue.userdata .asNull else .nil))
    ∧ (∀ reqs root with_null with_ref maxsize,
        (runAllocs (memalloc_init (ceilingOf maxsize)) reqs 1).2 = true →
        (decode_lua reqs root with_null with_ref maxsize).value
          = some (pushvalue root with_null with_ref)) := by
  refine ⟨fun _ => rfl, fun _ => rfl,
    fun with_null with_ref items j h => ?_, fun with_null with_ref k => ?_,
    fun reqs root with_null with_ref maxsize h => ?_⟩
  · have hkey := rawget_pushArr h with_null with_ref 1
    have hpush : pushvalue .null with_null with_ref
        = if with_null then LuaValue.userdata .asNull else .nil := by
      cases with_null <;> rfl
    rw [hpush] at hkey
    cases with_ref with
    | false => simpa [pushvalue, tableEntriesOf] using hkey
    | true =>
      have hne : LuaKey.intKey (-1) ≠ .intKey (1 + (j : Int)) := by
        simp only [ne_eq, LuaKey.intKey.injEq]
        omega
      simpa [pushvalue, tableEntriesOf, rawget, if_neg hne] using hkey
  · cases with_ref with
    | false =>
      cases with_null <;>
        simp [pushvalue, pushObj, setfield, tableEntriesOf, rawget]
    | true =>
      have hne : LuaKey.intKey (-1) ≠ .strKey k := by simp
      cases with_null <;>
        simp [pushvalue, pushObj, setfield, tableEntriesOf, rawget, hne]
  · simp [decode_lua, yyjson_read, h]

/-- Witness for C9 at a one-element array holding null, a one-entry object
mapping "x" to null, a one-entry object whose key "x\0y" carries an
embedded NUL (the null is stored under the truncated key "x"), and a decode
with no allocation requests. -/
theorem decode_null_policy_witness :
    rawget (tableEntriesOf (pushvalue (.arr (.cons .null .nil)) true true))
        (.intKey (1 + ((0 : Nat) : Int)))
      = some (if true then LuaValue.userdata .asNull else .nil)
    ∧ rawget
        (tableEntriesOf (pushvalue (.obj (.cons [120] .null .nil)) false true))
        (.strKey (truncCString [120]))
      = some (if false then LuaValue.userdata .asNull else .nil)
    ∧ rawget
        (tableEntriesOf
          (pushvalue (.obj (.cons [120, 0, 121] .null .nil)) true false))
        (.strKey [120])
      = some (if true then LuaValue.userdata .asNull else .nil)
    ∧ (decode_lua [] .null true false 0).value
      = some (pushvalue .null true false) :=
  ⟨decode_null_policy.2.2.1 true true (.cons .null .nil) 0 (by decide),
   decode_null_policy.2.2.2.1 false true [120],
   decode_null_policy.2.2.2.1 true false [120, 0, 121],
   decode_null_policy.2.2.2.2 [] .null true false 0 (by decide)⟩

theorem runAllocs_unbounded {reqs : List Nat} {m : Memalloc} {addr : Nat}
    (h : m.maxsize = 0) : (runAllocs m reqs addr).2 = true := by
  induction reqs generalizing m addr with
  | nil => rfl
  | cons size rest ih =>
    have hL : limitHit m size = false := by
      simp [limitHit, h]
    rw [runAllocs, malloc_lua, if_neg (by simp [hL]), if_pos rfl]
    exact ih (by simp [h])

/-- C10: a negative max_memory argument makes decode and encode set the
arena ceiling to 0, which disables the limit test entirely, so no
allocation in the call can fail from the memory ceiling: decode succeeds
and returns the pushed root, and encode reports no error. -/
theorem negative_maxsize_unbounded (maxsize : Int) (hneg : maxsize < 0) :
    ceilingOf maxsize = 0
    ∧ (∀ m size, m.maxsize = 0 → limitHit m size = false)
    ∧ (∀ reqs root with_null with_ref,
        (decode_lua reqs root with_null with_ref maxsize).errcode = none
        ∧ (decode_lua reqs root with_null with_ref maxsize).value
            = some (pushvalue root with_null with_ref))
    ∧ (∀ v reqs, (encode_lua v maxsize reqs).errcode = none) := by
  have hceil : ceilingOf maxsize = 0 := by
    rw [ceilingOf, if_pos hneg]
  have hrun : ∀ (reqs : List Nat),
      (runAllocs (memalloc_init (ceilingOf maxsize)) reqs 1).2 = true :=
    fun reqs => runAllocs_unbounded (by simp [memalloc_init, hceil])
  refine ⟨hceil, fun m size hm => by simp [limitHit, hm],
    fun reqs root with_null with_ref => ?_, fun v reqs => ?_⟩
  · constructor <;> simp [decode_lua, yyjson_read, hrun reqs]
  · simp [encode_lua, hrun reqs]

/-- Witness for C10 at max_memory -1: decode of an input requiring a
million-byte allocation reports no error code. -/
theorem negative_maxsize_unbounded_witness :
    ceilingOf (-1) = 0
    ∧ (decode_lua [1000000] .null false false (-1)).errcode = none :=
  ⟨(negative_maxsize_unbounded (-1) (by decide)).1,
   ((negative_maxsize_unbounded (-1) (by decide)).2.2.1
      [1000000] .null false false).1⟩

end Lyyjson
